import Mathlib

/-!
Verification development for the pydiverse.pipedag run-coordination core.

The definitions below are a shallow embedding of
`src/pydiverse/pipedag/context/run_context.py` and
`src/pydiverse/pipedag/core/materialise.py`:

* `StageState` embeds the `StageState` enum.
* `enterStageMutation` embeds the single mutating step of
  `RunContextServer._enter_stage_state_transition` (the code section that
  runs while holding `stage_state_lock` and may write `stage_state`).
* `exitStageCall` embeds `RunContextServer._exit_stage_state_transition`
  (both the state mutation and whether a `RuntimeError` is raised).
* `enterOutcome` embeds the full observable outcome of
  `_enter_stage_state_transition`, parametrised by the state observed in
  the first locked section (`s1`) and the state observed in the second
  locked section once the wait loop has exited (`s2`); the wait loop
  guarantees `s2 ≠ transition`, and when `s1 ≠ transition` no re-read
  happens, so `s2 = s1`.

All operations of the server on a single stage's state are serialised by
`stage_state_lock`, so every interleaving of RPC calls reduces to a
sequence of atomic mutations; `runTrace` collects the state sequence a
stage goes through under such a sequence.
-/

inductive StageState
  | UNINITIALIZED
  | INITIALIZING
  | READY
  | COMMITTING
  | COMMITTED
  | FAILED
deriving DecidableEq, Repr, Fintype

/-- The four mutating RPC operations on a stage's lifecycle state. -/
inductive StageOp
  | enterInit
  | enterCommit
  | exitInit (success : Bool)
  | exitCommit (success : Bool)
deriving DecidableEq, Repr, Fintype

/-- The state mutation performed by `_enter_stage_state_transition` while
holding `stage_state_lock`: if the stage is already in the target state
nothing changes (the call returns `False`); if it is in the from-state the
caller claims the transition by writing the transitional state; in every
other case the first locked section leaves the state untouched (the call
then waits and only reads). -/
def enterStageMutation (f tr tgt s : StageState) : StageState :=
  if s = tgt then s
  else if s = f then tr
  else s

/-- Outcome of `_exit_stage_state_transition`: `completed` when the call
returns normally, `raisedRuntimeError` when it raises `RuntimeError`. -/
inductive ExitOutcome
  | completed
  | raisedRuntimeError
deriving DecidableEq, Repr, Fintype

/-- Embedding of `_exit_stage_state_transition`: on `success = False` it
unconditionally writes FAILED and returns; on `success = True` it moves
the transitional state to the target state, and raises `RuntimeError`
(leaving the state unchanged) when the stage is not in the transitional
state. -/
def exitStageCall (success : Bool) (tr tgt s : StageState) : ExitOutcome × StageState :=
  if success = false then (ExitOutcome.completed, StageState.FAILED)
  else if s = tr then (ExitOutcome.completed, tgt)
  else (ExitOutcome.raisedRuntimeError, s)

/-- The state change each mutating RPC operation causes on one stage's
slot of `stage_state`, with the concrete from/transitional/target states
passed by `enter_init_stage`, `enter_commit_stage`, `exit_init_stage` and
`exit_commit_stage`. -/
def applyOp : StageOp → StageState → StageState
  | StageOp.enterInit, s =>
      enterStageMutation StageState.UNINITIALIZED StageState.INITIALIZING StageState.READY s
  | StageOp.enterCommit, s =>
      enterStageMutation StageState.READY StageState.COMMITTING StageState.COMMITTED s
  | StageOp.exitInit success, s =>
      (exitStageCall success StageState.INITIALIZING StageState.READY s).2
  | StageOp.exitCommit success, s =>
      (exitStageCall success StageState.COMMITTING StageState.COMMITTED s).2

/-- The sequence of states a stage goes through when a list of operations
is applied in order, starting from `s` (the start state included). -/
def runTrace : List StageOp → StageState → List StageState
  | [], s => [s]
  | op :: ops, s => s :: runTrace ops (applyOp op s)

/-- The final state after applying a list of operations in order. -/
def applyOps (ops : List StageOp) (s : StageState) : StageState :=
  ops.foldl (fun t op => applyOp op t) s

/-- Collapse consecutive duplicates of a state sequence. -/
def dedup : List StageState → List StageState
  | [] => []
  | [a] => [a]
  | a :: b :: rest => if a = b then dedup (b :: rest) else a :: dedup (b :: rest)

/-- The lifecycle chain UNINITIALIZED → INITIALIZING → READY → COMMITTING →
COMMITTED of the spec. -/
def lifecycleChain : List StageState :=
  [StageState.UNINITIALIZED, StageState.INITIALIZING, StageState.READY,
   StageState.COMMITTING, StageState.COMMITTED]

/-- `listPrefixOf p l` means `p` is an initial segment of `l`. -/
def listPrefixOf (p l : List StageState) : Prop :=
  ∃ q, p ++ q = l

/-- The suffix of the lifecycle chain starting at a given (non-FAILED)
state; FAILED is off the chain. -/
def chainFrom : StageState → List StageState
  | StageState.UNINITIALIZED => lifecycleChain
  | StageState.INITIALIZING =>
      [StageState.INITIALIZING, StageState.READY, StageState.COMMITTING, StageState.COMMITTED]
  | StageState.READY => [StageState.READY, StageState.COMMITTING, StageState.COMMITTED]
  | StageState.COMMITTING => [StageState.COMMITTING, StageState.COMMITTED]
  | StageState.COMMITTED => [StageState.COMMITTED]
  | StageState.FAILED => []

/-- A state sequence is a valid lifecycle for the chain suffix starting at
`s`: its collapsed form is a nonempty prefix of `chainFrom s`, or such a
prefix (possibly empty) followed by one terminal FAILED. -/
def validFrom (s : StageState) (trace : List StageState) : Prop :=
  (dedup trace ≠ [] ∧ listPrefixOf (dedup trace) (chainFrom s)) ∨
  (∃ p, listPrefixOf p (chainFrom s) ∧ dedup trace = p ++ [StageState.FAILED])

/-- A state sequence is a valid stage lifecycle: its collapsed form is a
prefix of the chain UNINITIALIZED → INITIALIZING → READY → COMMITTING →
COMMITTED, with at most one diversion to FAILED, which is then terminal. -/
def validLifecycle (trace : List StageState) : Prop :=
  (dedup trace ≠ [] ∧ listPrefixOf (dedup trace) lifecycleChain) ∨
  (∃ p, listPrefixOf p lifecycleChain ∧ dedup trace = p ++ [StageState.FAILED])

theorem applyOp_step : ∀ (op : StageOp) (s : StageState),
    applyOp op s = s ∨ applyOp op s = StageState.FAILED ∨
      chainFrom s = s :: chainFrom (applyOp op s) := by
  decide

theorem applyOp_failed : ∀ op : StageOp,
    applyOp op StageState.FAILED = StageState.FAILED := by
  decide

theorem runTrace_ne_nil (ops : List StageOp) (s : StageState) : runTrace ops s ≠ [] := by
  cases ops <;> simp [runTrace]

theorem dedup_head (l : List StageState) (a : StageState) :
    ∃ t, dedup (a :: l) = a :: t := by
  induction l generalizing a with
  | nil => exact ⟨[], rfl⟩
  | cons b rest ih =>
    by_cases hab : a = b
    · subst hab
      obtain ⟨t, ht⟩ := ih a
      exact ⟨t, by simpa [dedup] using ht⟩
    · obtain ⟨t, ht⟩ := ih b
      refine ⟨dedup (b :: rest), ?_⟩
      simp [dedup, hab]

theorem listPrefixOf_cons (a : StageState) (p l : List StageState)
    (h : listPrefixOf p l) : listPrefixOf (a :: p) (a :: l) := by
  obtain ⟨q, hq⟩ := h
  exact ⟨q, by simp [hq]⟩

theorem listPrefixOf_single (s : StageState) (h : s ≠ StageState.FAILED) :
    listPrefixOf [s] (chainFrom s) := by
  cases s
  · exact ⟨[StageState.INITIALIZING, StageState.READY, StageState.COMMITTING,
      StageState.COMMITTED], rfl⟩
  · exact ⟨[StageState.READY, StageState.COMMITTING, StageState.COMMITTED], rfl⟩
  · exact ⟨[StageState.COMMITTING, StageState.COMMITTED], rfl⟩
  · exact ⟨[StageState.COMMITTED], rfl⟩
  · exact ⟨[], rfl⟩
  · exact absurd rfl h

theorem validFrom_failed_trace (trace : List StageOp) :
    ∀ s, validFrom s (runTrace trace s) := by
  induction trace with
  | nil =>
    intro s
    by_cases hF : s = StageState.FAILED
    · subst hF
      exact Or.inr ⟨[], ⟨[], rfl⟩, rfl⟩
    · refine Or.inl ⟨by simp [runTrace, dedup], ?_⟩
      have h1 := listPrefixOf_single s hF
      simpa [runTrace, dedup] using h1
  | cons op ops ih =>
    intro s
    have hs' := ih (applyOp op s)
    obtain ⟨tail, htail⟩ : ∃ tail, runTrace ops (applyOp op s) = applyOp op s :: tail := by
      cases ops <;> exact ⟨_, rfl⟩
    by_cases heq : applyOp op s = s
    · -- no state change: dedup collapses the repeated head
      have hd : dedup (runTrace (op :: ops) s) = dedup (runTrace ops (applyOp op s)) := by
        show dedup (s :: runTrace ops (applyOp op s)) = _
        rw [htail, heq]
        simp [dedup]
      rw [heq] at hs'
      rw [heq] at hd
      unfold validFrom at hs' ⊢
      rw [hd]
      exact hs'
    · have hne : ¬s = applyOp op s := fun h => heq h.symm
      have hd : dedup (runTrace (op :: ops) s) = s :: dedup (runTrace ops (applyOp op s)) := by
        show dedup (s :: runTrace ops (applyOp op s)) = _
        rw [htail]
        simp [dedup, hne]
      rcases applyOp_step op s with h1 | h2 | h3
      · exact absurd h1 heq
      · -- diversion to FAILED
        have hsF : s ≠ StageState.FAILED := by
          intro hc
          apply heq
          rw [hc]
          exact applyOp_failed op
        rw [h2] at hs'
        rcases hs' with ⟨hne2, hpre⟩ | ⟨p, hp, hdd⟩
        · -- nonempty prefix of chainFrom FAILED = [] is impossible
          obtain ⟨q, hq⟩ := hpre
          simp only [chainFrom, List.append_eq_nil] at hq
          exact absurd hq.1 hne2
        · obtain ⟨q, hq⟩ := hp
          simp only [chainFrom, List.append_eq_nil] at hq
          rw [hq.1] at hdd
          refine Or.inr ⟨[s], listPrefixOf_single s hsF, ?_⟩
          rw [hd, h2, hdd]
          rfl
      · -- step up the chain
        rcases hs' with ⟨hne2, hpre⟩ | ⟨p, hp, hdd⟩
        · refine Or.inl ⟨by simp [hd], ?_⟩
          rw [hd, h3]
          exact listPrefixOf_cons s _ _ hpre
        · refine Or.inr ⟨s :: p, ?_, ?_⟩
          · rw [h3]
            exact listPrefixOf_cons s _ _ hp
          · rw [hd, hdd]
            rfl

/-- C1: starting from UNINITIALIZED, the state sequence a stage goes
through under any sequence of enter/exit init/commit operations (the
serialisation of any interleaving by `stage_state_lock`) collapses to a
prefix of UNINITIALIZED → INITIALIZING → READY → COMMITTING → COMMITTED,
with at most one diversion to FAILED at the end; and FAILED is terminal:
no operation moves a FAILED stage to any other state. -/
theorem stage_lifecycle_valid (ops : List StageOp) :
    validLifecycle (runTrace ops StageState.UNINITIALIZED) ∧
      ∀ op : StageOp, applyOp op StageState.FAILED = StageState.FAILED := by
  constructor
  · have h := validFrom_failed_trace ops StageState.UNINITIALIZED
    rw [validFrom] at h
    exact h
  · exact applyOp_failed

/-- Observable outcome of a full `_enter_stage_state_transition` call:
`claimed` is a `True` return (caller owns the transition), `alreadyDone`
is a `False` return, `raisedStageError` is a raised `StageError`, and
`returnedNone` is the implicit `None` return when the function falls off
its end. -/
inductive EnterOutcome
  | claimed
  | alreadyDone
  | raisedStageError
  | returnedNone
deriving DecidableEq, Repr, Fintype

/-- Embedding of the control flow of `_enter_stage_state_transition`.
`s1` is the state read in the first section (under `stage_state_lock`);
`s2` is the state read in the second locked section, after the wait loop
`while stage_state[stage_id] == transition` has exited (so `s2 ≠ tr`;
when `s1 ≠ tr` the loop body never runs and `s2 = s1`). The second
section returns `False` on the target state, raises `StageError` on
FAILED, and otherwise falls off the end of the function, which in Python
returns `None`. -/
def enterOutcome (f tr tgt s1 s2 : StageState) : EnterOutcome :=
  if s1 = tgt then EnterOutcome.alreadyDone
  else if s1 = f then EnterOutcome.claimed
  else if s2 = tgt then EnterOutcome.alreadyDone
  else if s2 = StageState.FAILED then EnterOutcome.raisedStageError
  else EnterOutcome.returnedNone

/-- `enter_init_stage`: from UNINITIALIZED via INITIALIZING to READY. -/
def enter_init_outcome (s1 s2 : StageState) : EnterOutcome :=
  enterOutcome StageState.UNINITIALIZED StageState.INITIALIZING StageState.READY s1 s2

/-- `enter_commit_stage`: from READY via COMMITTING to COMMITTED. -/
def enter_commit_outcome (s1 s2 : StageState) : EnterOutcome :=
  enterOutcome StageState.READY StageState.COMMITTING StageState.COMMITTED s1 s2

/-- C2 counterexample: the claim says `enter_init_stage` always returns a
boolean or raises `StageError` on a FAILED stage, but on a stage that has
already been committed (a state reachable by the honest operation
sequence init / exit-init-success / commit / exit-commit-success) the
call falls off the end of the function and returns `None`: neither
`True`, `False`, nor a `StageError`. -/
theorem enter_init_returns_none_on_committed :
    applyOps
        [StageOp.enterInit, StageOp.exitInit true, StageOp.enterCommit,
         StageOp.exitCommit true] StageState.UNINITIALIZED = StageState.COMMITTED ∧
      enter_init_outcome StageState.COMMITTED StageState.COMMITTED =
        EnterOutcome.returnedNone ∧
      EnterOutcome.returnedNone ≠ EnterOutcome.claimed ∧
      EnterOutcome.returnedNone ≠ EnterOutcome.alreadyDone ∧
      EnterOutcome.returnedNone ≠ EnterOutcome.raisedStageError := by
  decide

set_option maxHeartbeats 1000000 in
set_option synthInstance.maxSize 400 in
/-- C2 (amended): `enter_init_stage` and `enter_commit_stage` return
`True` when the first locked read sees the from-state (the caller owns
the transition), `False` when it sees the target state, and otherwise
wait out the transitional state and then return `False` on the target
state, raise `StageError` on FAILED (in particular whenever the stage is
FAILED at the first read, since FAILED is terminal), and return `None`
(no boolean) when the post-wait state is none of these. -/
theorem enter_stage_outcome_spec :
    ∀ s1 s2 : StageState,
      (s1 = StageState.READY → enter_init_outcome s1 s2 = EnterOutcome.alreadyDone) ∧
      (s1 = StageState.UNINITIALIZED → enter_init_outcome s1 s2 = EnterOutcome.claimed) ∧
      (s1 ≠ StageState.READY → s1 ≠ StageState.UNINITIALIZED → s2 = StageState.READY →
        enter_init_outcome s1 s2 = EnterOutcome.alreadyDone) ∧
      (s1 ≠ StageState.READY → s1 ≠ StageState.UNINITIALIZED → s2 = StageState.FAILED →
        enter_init_outcome s1 s2 = EnterOutcome.raisedStageError) ∧
      (s1 ≠ StageState.READY → s1 ≠ StageState.UNINITIALIZED → s2 ≠ StageState.READY →
        s2 ≠ StageState.FAILED →
        enter_init_outcome s1 s2 = EnterOutcome.returnedNone) ∧
      (s1 = StageState.COMMITTED → enter_commit_outcome s1 s2 = EnterOutcome.alreadyDone) ∧
      (s1 = StageState.READY → enter_commit_outcome s1 s2 = EnterOutcome.claimed) ∧
      (s1 ≠ StageState.COMMITTED → s1 ≠ StageState.READY → s2 = StageState.COMMITTED →
        enter_commit_outcome s1 s2 = EnterOutcome.alreadyDone) ∧
      (s1 ≠ StageState.COMMITTED → s1 ≠ StageState.READY → s2 = StageState.FAILED →
        enter_commit_outcome s1 s2 = EnterOutcome.raisedStageError) ∧
      (s1 ≠ StageState.COMMITTED → s1 ≠ StageState.READY → s2 ≠ StageState.COMMITTED →
        s2 ≠ StageState.FAILED →
        enter_commit_outcome s1 s2 = EnterOutcome.returnedNone) := by
  decide

/-- Witness for the amended C2 theorem at concrete states: a FAILED stage
makes `enter_init_stage` raise `StageError`. -/
theorem enter_stage_outcome_spec_witness :
    enter_init_outcome StageState.FAILED StageState.FAILED =
      EnterOutcome.raisedStageError :=
  (enter_stage_outcome_spec StageState.FAILED StageState.FAILED).2.2.2.1
    (by decide) (by decide) rfl

/-- C7 counterexample: the claim says `exit_init_stage` raises
`RuntimeError` whenever the stage is not in INITIALIZING, for every
success flag; but with `success = False` on a stage in READY the code
raises nothing and unconditionally sets the stage to FAILED. -/
theorem exit_init_failure_does_not_raise :
    exitStageCall false StageState.INITIALIZING StageState.READY StageState.READY =
        (ExitOutcome.completed, StageState.FAILED) ∧
      ExitOutcome.completed ≠ ExitOutcome.raisedRuntimeError := by
  decide

/-- C7 (amended): with `success = True`, `exit_init_stage` and
`exit_commit_stage` move the matching transitional state to the target
state and raise `RuntimeError` (leaving the state unchanged) when the
stage is not in that transitional state; with `success = False` they
unconditionally set the stage to FAILED and never raise. -/
theorem exit_stage_call_spec :
    ∀ s : StageState,
      (exitStageCall true StageState.INITIALIZING StageState.READY StageState.INITIALIZING =
        (ExitOutcome.completed, StageState.READY)) ∧
      (s ≠ StageState.INITIALIZING →
        exitStageCall true StageState.INITIALIZING StageState.READY s =
          (ExitOutcome.raisedRuntimeError, s)) ∧
      (exitStageCall false StageState.INITIALIZING StageState.READY s =
        (ExitOutcome.completed, StageState.FAILED)) ∧
      (exitStageCall true StageState.COMMITTING StageState.COMMITTED StageState.COMMITTING =
        (ExitOutcome.completed, StageState.COMMITTED)) ∧
      (s ≠ StageState.COMMITTING →
        exitStageCall true StageState.COMMITTING StageState.COMMITTED s =
          (ExitOutcome.raisedRuntimeError, s)) ∧
      (exitStageCall false StageState.COMMITTING StageState.COMMITTED s =
        (ExitOutcome.completed, StageState.FAILED)) := by
  decide

/-- Witness for the amended C7 theorem: `exit_init_stage(success=True)`
on a READY stage raises `RuntimeError`. -/
theorem exit_stage_call_spec_witness :
    exitStageCall true StageState.INITIALIZING StageState.READY StageState.READY =
      (ExitOutcome.raisedRuntimeError, StageState.READY) :=
  (exit_stage_call_spec StageState.READY).2.1 (by decide)

/-- A memo-table entry for one `memo_key`. `RunContextServer.task_memo`
is a defaultdict whose missing keys read as `MemoState.NONE`; a stored
concrete result is any non-`MemoState` value, embedded here as
`MemoEntry.value v`. -/
inductive MemoEntry
  | NONE
  | WAITING
  | FAILED
  | value (v : Nat)
deriving DecidableEq, Repr

/-- True exactly when the entry is a `MemoState` sentinel, i.e. the
Python check `isinstance(memo, MemoState)` succeeds. -/
def isMemoStateSentinel : MemoEntry → Bool
  | MemoEntry.value _ => false
  | _ => true

/-- Embedding of `RunContextServer.store_task_memo` (run while holding
`task_memo_lock`): first component is whether an exception is raised
("Expected memo state to be waiting"), second is the entry afterwards.
Only an entry in WAITING is replaced by the concrete value. -/
def store_task_memo (entry : MemoEntry) (v : Nat) : Bool × MemoEntry :=
  if entry = MemoEntry.WAITING then (false, MemoEntry.value v)
  else (true, entry)

/-- Embedding of `RunContextServer.exit_task_memo` (run while holding
`task_memo_lock`): with `success = False` the entry is unconditionally
overwritten with FAILED; with `success = True` the call raises
("set_task_memo not called") exactly when the entry is still a
`MemoState` sentinel, leaving the entry unchanged. -/
def exit_task_memo (entry : MemoEntry) (success : Bool) : Bool × MemoEntry :=
  if success = false then (false, MemoEntry.FAILED)
  else
    match entry with
    | MemoEntry.value v => (false, MemoEntry.value v)
    | e => (true, e)

/-- Outcome of a full `RunContextServer.enter_task_memo` call:
`mustCompute` is a `(False, None)` return (the caller claimed the key),
`gotValue v` is a `(True, v)` return, `raisedFailed` is the exception for
an earlier FAILED peer, `raisedBadState` the defensive raise when a
`MemoState` sentinel other than FAILED survives the wait loop. -/
inductive MemoEnterOutcome
  | mustCompute
  | gotValue (v : Nat)
  | raisedFailed
  | raisedBadState
deriving DecidableEq, Repr

/-- Embedding of `RunContextServer.enter_task_memo`. `e1` is the entry
read under `task_memo_lock`; if it is NONE the call writes WAITING and
returns `(False, None)`. Otherwise the call polls while the entry is
WAITING; `e2` is the entry it finally observes (when `e1 ≠ WAITING` no
re-read happens, so `e2 = e1`). The call itself mutates the table only
in the NONE case. -/
def enter_task_memo_call (e1 e2 : MemoEntry) : MemoEnterOutcome × MemoEntry :=
  if e1 = MemoEntry.NONE then (MemoEnterOutcome.mustCompute, MemoEntry.WAITING)
  else
    match e2 with
    | MemoEntry.FAILED => (MemoEnterOutcome.raisedFailed, MemoEntry.FAILED)
    | MemoEntry.value v => (MemoEnterOutcome.gotValue v, MemoEntry.value v)
    | e => (MemoEnterOutcome.raisedBadState, e)

/-- The mutating RPC operations that touch one memo key: the locked
first section of `enter_task_memo`, `store_task_memo`, and
`exit_task_memo`. All run under `task_memo_lock`, so any interleaving of
calls serialises into a sequence of these atomic steps. -/
inductive MemoOp
  | enter1
  | store (v : Nat)
  | exitMemo (success : Bool)
deriving DecidableEq, Repr

/-- The memo-table mutation each operation performs on one key's entry. -/
def applyMemoOp : MemoOp → MemoEntry → MemoEntry
  | MemoOp.enter1, e => if e = MemoEntry.NONE then MemoEntry.WAITING else e
  | MemoOp.store v, e => (store_task_memo e v).2
  | MemoOp.exitMemo success, e => (exit_task_memo e success).2

/-- The entry after a sequence of memo operations. -/
def applyMemoOps (ops : List MemoOp) (e : MemoEntry) : MemoEntry :=
  ops.foldl (fun x op => applyMemoOp op x) e

/-- Whether an operation is a `store_task_memo` that succeeds (replaces
WAITING by a concrete value) on the given entry. -/
def storeSucceeds : MemoOp → MemoEntry → Bool
  | MemoOp.store _, e => e = MemoEntry.WAITING
  | _, _ => false

/-- Number of successful WAITING → value transitions along a run. -/
def countStores : List MemoOp → MemoEntry → Nat
  | [], _ => 0
  | op :: ops, e => (if storeSucceeds op e then 1 else 0) + countStores ops (applyMemoOp op e)

/-- How many successful stores can still happen from a given entry. -/
def storePotential : MemoEntry → Nat
  | MemoEntry.NONE => 1
  | MemoEntry.WAITING => 1
  | _ => 0

theorem memo_store_step (op : MemoOp) (e : MemoEntry) :
    (if storeSucceeds op e then 1 else 0) + storePotential (applyMemoOp op e) ≤
      storePotential e := by
  cases op with
  | enter1 => cases e <;> simp [applyMemoOp, storeSucceeds, storePotential]
  | store v => cases e <;> simp [applyMemoOp, storeSucceeds, storePotential, store_task_memo]
  | exitMemo success =>
    cases success <;> cases e <;>
      simp [applyMemoOp, storeSucceeds, storePotential, exit_task_memo]

theorem countStores_add_potential (ops : List MemoOp) :
    ∀ e : MemoEntry,
      countStores ops e + storePotential (applyMemoOps ops e) ≤ storePotential e := by
  induction ops with
  | nil => intro e; simp [countStores, applyMemoOps]
  | cons op rest ih =>
    intro e
    have h1 := memo_store_step op e
    have h2 := ih (applyMemoOp op e)
    simp only [countStores, applyMemoOps, List.foldl] at h2 ⊢
    omega

/-- C3: for every memo key, at most one WAITING → value transition occurs
along any serialised interleaving of memo operations starting from the
absent-key (NONE) entry; `store_task_memo` replaces WAITING with the
value and raises (entry unchanged) whenever the entry is not WAITING; and
an `enter_task_memo` observer that did not claim the key returns the
stored value once it observes it, and raises once it observes FAILED. -/
theorem task_memo_single_store :
    (∀ ops : List MemoOp, countStores ops MemoEntry.NONE ≤ 1) ∧
    (∀ v : Nat, store_task_memo MemoEntry.WAITING v = (false, MemoEntry.value v)) ∧
    (∀ (e : MemoEntry) (v : Nat), e ≠ MemoEntry.WAITING → store_task_memo e v = (true, e)) ∧
    (∀ (e1 : MemoEntry) (v : Nat), e1 ≠ MemoEntry.NONE →
      enter_task_memo_call e1 (MemoEntry.value v) =
        (MemoEnterOutcome.gotValue v, MemoEntry.value v)) ∧
    (∀ e1 : MemoEntry, e1 ≠ MemoEntry.NONE →
      enter_task_memo_call e1 MemoEntry.FAILED =
        (MemoEnterOutcome.raisedFailed, MemoEntry.FAILED)) := by
  refine ⟨?_, ?_, ?_, ?_, ?_⟩
  · intro ops
    have h := countStores_add_potential ops MemoEntry.NONE
    simp only [storePotential] at h
    omega
  · intro v
    simp [store_task_memo]
  · intro e v h
    simp [store_task_memo, h]
  · intro e1 v h
    simp [enter_task_memo_call, h]
  · intro e1 h
    simp [enter_task_memo_call, h]

/-- Witness for C3 at concrete inputs: a second store (entry already a
concrete value) raises and leaves the entry unchanged, and an observer
with a non-NONE first read returns the stored value. -/
theorem task_memo_single_store_witness :
    store_task_memo (MemoEntry.value 5) 7 = (true, MemoEntry.value 5) ∧
      enter_task_memo_call MemoEntry.WAITING (MemoEntry.value 5) =
        (MemoEnterOutcome.gotValue 5, MemoEntry.value 5) :=
  ⟨task_memo_single_store.2.2.1 (MemoEntry.value 5) 7 (by decide),
   task_memo_single_store.2.2.2.1 MemoEntry.WAITING 5 (by decide)⟩

/-- C10: `exit_task_memo` with `success = True` raises ("set_task_memo
not called") exactly when the entry is still a `MemoState` sentinel
(NONE, WAITING or FAILED), leaving the entry unchanged — so a successful
task path that skipped `store_task_memo` cannot silently leave the entry
in WAITING; with a concrete stored value it returns normally; with
`success = False` the entry is unconditionally overwritten with FAILED
and nothing is raised. -/
theorem exit_task_memo_spec :
    ∀ e : MemoEntry,
      (exit_task_memo e false = (false, MemoEntry.FAILED)) ∧
      (∀ v : Nat, exit_task_memo (MemoEntry.value v) true = (false, MemoEntry.value v)) ∧
      (isMemoStateSentinel e = true → exit_task_memo e true = (true, e)) := by
  intro e
  refine ⟨?_, ?_, ?_⟩
  · simp [exit_task_memo]
  · intro v
    simp [exit_task_memo]
  · intro h
    cases e <;> simp_all [exit_task_memo, isMemoStateSentinel]

/-- Witness for C10: `exit_task_memo(success=True)` on an entry still in
WAITING raises and leaves the entry in WAITING. -/
theorem exit_task_memo_spec_witness :
    exit_task_memo MemoEntry.WAITING true = (true, MemoEntry.WAITING) :=
  (exit_task_memo_spec MemoEntry.WAITING).2.2 (by decide)

/-- Result dictionary of `RunContextServer.add_names`: `success`, and on
failure the lists of duplicate table and blob names. -/
structure AddNamesResult where
  success : Bool
  table_duplicates : List String
  blob_duplicates : List String
deriving DecidableEq, Repr

/-- Embedding of `RunContextServer.add_names` for one stage (run while
holding `names_lock`): collect the supplied table names already present
in the stage's table-name set and the supplied blob names already present
in the blob-name set; if either list is nonempty, return failure with the
duplicates and leave both sets untouched; otherwise insert every supplied
name and return success. The Python sets `table_names[stage_id]` and
`blob_names[stage_id]` are embedded as finite sets of strings. -/
def add_names (tableNames blobNames : Finset String) (tables blobs : List String) :
    AddNamesResult × Finset String × Finset String :=
  let table_duplicates := tables.filter (fun t => t ∈ tableNames)
  let blob_duplicates := blobs.filter (fun b => b ∈ blobNames)
  if table_duplicates ≠ [] ∨ blob_duplicates ≠ [] then
    (⟨false, table_duplicates, blob_duplicates⟩, tableNames, blobNames)
  else
    (⟨true, [], []⟩,
     tables.foldl (fun s n => insert n s) tableNames,
     blobs.foldl (fun s n => insert n s) blobNames)

theorem mem_foldl_insert (l : List String) :
    ∀ (s : Finset String) (n : String),
      n ∈ l.foldl (fun acc x => insert x acc) s ↔ n ∈ s ∨ n ∈ l := by
  induction l with
  | nil => intro s n; simp
  | cons a rest ih =>
    intro s n
    simp only [List.foldl_cons, ih, Finset.mem_insert, List.mem_cons]
    tauto

/-- C4: `add_names` is all-or-nothing. If some supplied table name is
already in the stage's table-name set or some supplied blob name is
already in its blob-name set, the call fails, reports exactly the
duplicate names of each kind, and leaves both sets completely unchanged;
otherwise it succeeds and afterwards each set holds exactly its old names
plus the supplied names of that kind — in particular every supplied name
is newly present. -/
theorem add_names_all_or_nothing
    (tableNames blobNames : Finset String) (tables blobs : List String) :
    (((∃ t ∈ tables, t ∈ tableNames) ∨ (∃ b ∈ blobs, b ∈ blobNames)) →
      (add_names tableNames blobNames tables blobs).1.success = false ∧
      (add_names tableNames blobNames tables blobs).2.1 = tableNames ∧
      (add_names tableNames blobNames tables blobs).2.2 = blobNames ∧
      (∀ n, n ∈ (add_names tableNames blobNames tables blobs).1.table_duplicates ↔
        n ∈ tables ∧ n ∈ tableNames) ∧
      (∀ n, n ∈ (add_names tableNames blobNames tables blobs).1.blob_duplicates ↔
        n ∈ blobs ∧ n ∈ blobNames)) ∧
    ((¬(∃ t ∈ tables, t ∈ tableNames) ∧ ¬(∃ b ∈ blobs, b ∈ blobNames)) →
      (add_names tableNames blobNames tables blobs).1.success = true ∧
      (∀ n, n ∈ (add_names tableNames blobNames tables blobs).2.1 ↔
        n ∈ tableNames ∨ n ∈ tables) ∧
      (∀ n, n ∈ (add_names tableNames blobNames tables blobs).2.2 ↔
        n ∈ blobNames ∨ n ∈ blobs) ∧
      (∀ n, n ∈ tables → n ∉ tableNames) ∧
      (∀ n, n ∈ blobs → n ∉ blobNames)) := by
  have hfil : ∀ (l : List String) (s : Finset String),
      (l.filter (fun t => t ∈ s) ≠ []) ↔ ∃ t ∈ l, t ∈ s := by
    intro l s
    rw [Ne, List.filter_eq_nil_iff]
    push_neg
    simp
  constructor
  · intro hdup
    have hcond : (tables.filter (fun t => t ∈ tableNames) ≠ []) ∨
        (blobs.filter (fun b => b ∈ blobNames) ≠ []) := by
      rcases hdup with h | h
      · exact Or.inl ((hfil tables tableNames).mpr h)
      · exact Or.inr ((hfil blobs blobNames).mpr h)
    refine ⟨?_, ?_, ?_, ?_, ?_⟩ <;>
      simp only [add_names, if_pos hcond] <;> simp
  · intro hnodup
    have h1 : tables.filter (fun t => t ∈ tableNames) = [] := by
      by_contra hc
      exact hnodup.1 ((hfil tables tableNames).mp hc)
    have h2 : blobs.filter (fun b => b ∈ blobNames) = [] := by
      by_contra hc
      exact hnodup.2 ((hfil blobs blobNames).mp hc)
    have hcond : ¬((tables.filter (fun t => t ∈ tableNames) ≠ []) ∨
        (blobs.filter (fun b => b ∈ blobNames) ≠ [])) := by
      push_neg
      exact ⟨h1, h2⟩
    refine ⟨?_, ?_, ?_, ?_, ?_⟩
    · simp only [add_names, if_neg hcond]
    · intro n
      simp only [add_names, if_neg hcond]
      exact mem_foldl_insert tables tableNames n
    · intro n
      simp only [add_names, if_neg hcond]
      exact mem_foldl_insert blobs blobNames n
    · intro n hn hmem
      exact hnodup.1 ⟨n, hn, hmem⟩
    · intro n hn hmem
      exact hnodup.2 ⟨n, hn, hmem⟩

/-- Witness for C4 at concrete inputs: adding table name "t" twice to a
stage — the first call succeeds and registers it, the second fails with
exactly that duplicate and changes nothing. -/
theorem add_names_all_or_nothing_witness :
    (add_names ∅ ∅ ["t"] []).1.success = true ∧
      (add_names (add_names ∅ ∅ ["t"] []).2.1 ∅ ["t"] []).1.success = false ∧
      (add_names (add_names ∅ ∅ ["t"] []).2.1 ∅ ["t"] []).2.1 =
        (add_names ∅ ∅ ["t"] []).2.1 := by
  have hfirst := add_names_all_or_nothing ∅ ∅ ["t"] []
  have hsucc := hfirst.2 (by simp)
  have hmem : "t" ∈ (add_names ∅ ∅ ["t"] []).2.1 := by
    rw [hsucc.2.1 "t"]
    simp
  have hsecond := add_names_all_or_nothing (add_names ∅ ∅ ["t"] []).2.1 ∅ ["t"] []
  have hfail := hsecond.1 (Or.inl ⟨"t", by simp, hmem⟩)
  exact ⟨hsucc.1, hfail.1, hfail.2.1⟩

/-- Embedding of the loop body of `RunContextServer.did_finish_task`
(run while holding `ref_count_lock`): for each upstream stage id, the
counter is decremented; a stage whose counter reaches exactly 0 is
appended to the to-release list, a stage whose counter becomes negative
is appended to the error-log list (and nothing else happens: no
exception). `ref_count` (a Python list indexed by stage id) is embedded
as a function from stage ids to integers. -/
def didFinishLoop (refCount : Nat → Int) (toRelease logged : List Nat) :
    List Nat → (Nat → Int) × List Nat × List Nat
  | [] => (refCount, toRelease, logged)
  | s :: rest =>
      didFinishLoop (Function.update refCount s (refCount s - 1))
        (if refCount s - 1 = 0 then toRelease ++ [s] else toRelease)
        (if refCount s - 1 < 0 then logged ++ [s] else logged)
        rest

/-- Embedding of `RunContextServer.did_finish_task` for one task, given
the task's upstream stage ids (`task.upstream_stages` is a Python set,
hence duplicate-free): the new counters, the stages whose locks are
released afterwards (outside the lock), and the stages whose negative
counters were logged. -/
def did_finish_task (refCount : Nat → Int) (upstreams : List Nat) :
    (Nat → Int) × List Nat × List Nat :=
  didFinishLoop refCount [] [] upstreams

theorem didFinishLoop_count (ups : List Nat) :
    ∀ (rc : Nat → Int) (rel log : List Nat) (x : Nat),
      (didFinishLoop rc rel log ups).1 x = rc x - (ups.count x : Int) := by
  induction ups with
  | nil => intro rc rel log x; simp [didFinishLoop]
  | cons s rest ih =>
    intro rc rel log x
    simp only [didFinishLoop]
    rw [ih]
    by_cases hxs : x = s
    · subst hxs
      rw [Function.update_same, List.count_cons_self]
      push_cast
      ring
    · rw [Function.update_noteq hxs, List.count_cons_of_ne hxs]

theorem didFinishLoop_lists (ups : List Nat) :
    ∀ (rc : Nat → Int) (rel log : List Nat) (x : Nat), ups.Nodup →
      ((x ∈ (didFinishLoop rc rel log ups).2.1 ↔
        x ∈ rel ∨ (x ∈ ups ∧ (didFinishLoop rc rel log ups).1 x = 0)) ∧
       (x ∈ (didFinishLoop rc rel log ups).2.2 ↔
        x ∈ log ∨ (x ∈ ups ∧ (didFinishLoop rc rel log ups).1 x < 0))) := by
  induction ups with
  | nil =>
    intro rc rel log x _
    simp [didFinishLoop]
  | cons s rest ih =>
    intro rc rel log x hnd
    have hs_rest : s ∉ rest := (List.nodup_cons.mp hnd).1
    have hrest : rest.Nodup := (List.nodup_cons.mp hnd).2
    have ihx := ih (Function.update rc s (rc s - 1))
      (if rc s - 1 = 0 then rel ++ [s] else rel)
      (if rc s - 1 < 0 then log ++ [s] else log) x hrest
    have hfin_s : ∀ rel2 log2 : List Nat,
        (didFinishLoop (Function.update rc s (rc s - 1)) rel2 log2 rest).1 s = rc s - 1 := by
      intro rel2 log2
      rw [didFinishLoop_count]
      rw [List.count_eq_zero_of_not_mem hs_rest]
      simp [Function.update_same]
    simp only [didFinishLoop]
    constructor
    · rw [ihx.1]
      by_cases hxs : x = s
      · subst hxs
        by_cases hz : rc x - 1 = 0
        · simp only [if_pos hz, List.mem_append, List.mem_singleton]
          constructor
          · rintro ((h | h) | h)
            · exact Or.inl h
            · exact Or.inr ⟨List.mem_cons_self x rest, by rw [hfin_s]; exact hz⟩
            · exact Or.inr ⟨List.mem_cons_of_mem x h.1, h.2⟩
          · rintro (h | ⟨hmem, hval⟩)
            · exact Or.inl (Or.inl h)
            · exact Or.inl (Or.inr trivial)
        · simp only [if_neg hz]
          constructor
          · rintro (h | h)
            · exact Or.inl h
            · exact Or.inr ⟨List.mem_cons_of_mem x h.1, h.2⟩
          · rintro (h | ⟨hmem, hval⟩)
            · exact Or.inl h
            · rcases List.mem_cons.mp hmem with heq | hmem2
              · rw [heq] at hval ⊢
                rw [hfin_s] at hval
                exact absurd hval hz
              · exact Or.inr ⟨hmem2, hval⟩
      · have hsplit : x ∈ (if rc s - 1 = 0 then rel ++ [s] else rel) ↔ x ∈ rel := by
          by_cases hz : rc s - 1 = 0 <;>
            simp [hz, List.mem_append, hxs]
        rw [hsplit]
        constructor
        · rintro (h | h)
          · exact Or.inl h
          · exact Or.inr ⟨List.mem_cons_of_mem s h.1, h.2⟩
        · rintro (h | ⟨hmem, hval⟩)
          · exact Or.inl h
          · rcases List.mem_cons.mp hmem with heq | hmem2
            · exact absurd heq hxs
            · exact Or.inr ⟨hmem2, hval⟩
    · rw [ihx.2]
      by_cases hxs : x = s
      · subst hxs
        by_cases hz : rc x - 1 < 0
        · simp only [if_pos hz, List.mem_append, List.mem_singleton]
          constructor
          · rintro ((h | h) | h)
            · exact Or.inl h
            · exact Or.inr ⟨List.mem_cons_self x rest, by rw [hfin_s]; exact hz⟩
            · exact Or.inr ⟨List.mem_cons_of_mem x h.1, h.2⟩
          · rintro (h | ⟨hmem, hval⟩)
            · exact Or.inl (Or.inl h)
            · exact Or.inl (Or.inr trivial)
        · simp only [if_neg hz]
          constructor
          · rintro (h | h)
            · exact Or.inl h
            · exact Or.inr ⟨List.mem_cons_of_mem x h.1, h.2⟩
          · rintro (h | ⟨hmem, hval⟩)
            · exact Or.inl h
            · rcases List.mem_cons.mp hmem with heq | hmem2
              · rw [heq] at hval ⊢
                rw [hfin_s] at hval
                exact absurd hval hz
              · exact Or.inr ⟨hmem2, hval⟩
      · have hsplit : x ∈ (if rc s - 1 < 0 then log ++ [s] else log) ↔ x ∈ log := by
          by_cases hz : rc s - 1 < 0 <;>
            simp [hz, List.mem_append, hxs]
        rw [hsplit]
        constructor
        · rintro (h | h)
          · exact Or.inl h
          · exact Or.inr ⟨List.mem_cons_of_mem s h.1, h.2⟩
        · rintro (h | ⟨hmem, hval⟩)
          · exact Or.inl h
          · rcases List.mem_cons.mp hmem with heq | hmem2
            · exact absurd heq hxs
            · exact Or.inr ⟨hmem2, hval⟩

/-- C5: `did_finish_task` decrements the counter of each upstream stage
of the task by exactly one (and touches no other counter); the stages
collected for lock release are exactly the upstream stages whose counter
reaches exactly 0; and a counter that becomes negative only lands in the
error log — every branch returns normally, nothing is raised. -/
theorem did_finish_task_spec (rc : Nat → Int) (ups : List Nat) (x : Nat)
    (h : ups.Nodup) :
    ((did_finish_task rc ups).1 x = rc x - (if x ∈ ups then 1 else 0)) ∧
    (x ∈ (did_finish_task rc ups).2.1 ↔
      x ∈ ups ∧ (did_finish_task rc ups).1 x = 0) ∧
    (x ∈ (did_finish_task rc ups).2.2 ↔
      x ∈ ups ∧ (did_finish_task rc ups).1 x < 0) := by
  have hc := didFinishLoop_count ups rc [] [] x
  have hl := didFinishLoop_lists ups rc [] [] x h
  refine ⟨?_, ?_, ?_⟩
  · unfold did_finish_task
    rw [hc]
    by_cases hmem : x ∈ ups
    · rw [if_pos hmem, List.count_eq_one_of_mem h hmem]
      rfl
    · rw [if_neg hmem, List.count_eq_zero_of_not_mem hmem]
      rfl
  · unfold did_finish_task at hl ⊢
    rw [hl.1]
    simp
  · unfold did_finish_task at hl ⊢
    rw [hl.2]
    simp

/-- Witness for C5 at a concrete input: a task with upstream stages 0 and
1 where stage 0's counter drops to 0 (released) and stage 1's counter
drops to 1 (kept). -/
theorem did_finish_task_spec_witness :
    ((did_finish_task (fun s => if s = 0 then 1 else 2) [0, 1]).1 0 =
        (if (0:Nat) = 0 then (1:Int) else 2) - (if (0:Nat) ∈ [0, 1] then 1 else 0)) ∧
      ((0:Nat) ∈ (did_finish_task (fun s => if s = 0 then 1 else 2) [0, 1]).2.1 ↔
        (0:Nat) ∈ [0, 1] ∧
          (did_finish_task (fun s => if s = 0 then 1 else 2) [0, 1]).1 0 = 0) ∧
      ((0:Nat) ∈ (did_finish_task (fun s => if s = 0 then 1 else 2) [0, 1]).2.2 ↔
        (0:Nat) ∈ [0, 1] ∧
          (did_finish_task (fun s => if s = 0 then 1 else 2) [0, 1]).1 0 < 0) :=
  did_finish_task_spec (fun s => if s = 0 then 1 else 2) [0, 1] 0 (by decide)

/-- Embedding of the reference-counter initialisation in
`RunContextServer.__enter__`: starting from all-zero counters (`[0] *
num_stages` in the constructor), every task's upstream stage ids are
visited once (the source iterates stages, then each stage's tasks, and
each task belongs to exactly one stage) and each visit increments the
stage's counter. The flow is embedded as the list of each task's
upstream stage-id list. -/
def init_ref_count (tasksUpstreams : List (List Nat)) : Nat → Int :=
  tasksUpstreams.foldl
    (fun rc ups => ups.foldl (fun r s => Function.update r s (r s + 1)) rc)
    (fun _ => 0)

/-- The counters after a set of tasks has reported `did_finish_task`,
each exactly once, in the given order. -/
def apply_finishes (rc : Nat → Int) (done : List (List Nat)) : Nat → Int :=
  done.foldl (fun r ups => (did_finish_task r ups).1) rc

theorem foldl_incr_count (ups : List Nat) :
    ∀ (rc : Nat → Int) (x : Nat),
      (ups.foldl (fun r s => Function.update r s (r s + 1)) rc) x =
        rc x + (ups.count x : Int) := by
  induction ups with
  | nil => intro rc x; simp
  | cons s rest ih =>
    intro rc x
    rw [List.foldl_cons, ih]
    by_cases hxs : x = s
    · subst hxs
      rw [Function.update_same, List.count_cons_self]
      push_cast
      ring
    · rw [Function.update_noteq hxs, List.count_cons_of_ne hxs]

theorem init_ref_count_sum (tasks : List (List Nat)) :
    ∀ (x : Nat),
      init_ref_count tasks x = ((tasks.map (fun u => (u.count x : Int))).sum) := by
  have hgen : ∀ (ts : List (List Nat)) (rc : Nat → Int) (x : Nat),
      (ts.foldl (fun r ups => ups.foldl (fun r2 s => Function.update r2 s (r2 s + 1)) r) rc) x =
        rc x + ((ts.map (fun u => (u.count x : Int))).sum) := by
    intro ts
    induction ts with
    | nil => intro rc x; simp
    | cons u rest ih =>
      intro rc x
      rw [List.foldl_cons, ih, foldl_incr_count]
      rw [List.map_cons, List.sum_cons]
      ring
  intro x
  rw [init_ref_count, hgen]
  simp

theorem apply_finishes_sum (done : List (List Nat)) :
    ∀ (rc : Nat → Int) (x : Nat),
      apply_finishes rc done x = rc x - ((done.map (fun u => (u.count x : Int))).sum) := by
  induction done with
  | nil => intro rc x; simp [apply_finishes]
  | cons u rest ih =>
    intro rc x
    rw [apply_finishes, List.foldl_cons]
    rw [show (rest.foldl (fun r ups => (did_finish_task r ups).1)
        (did_finish_task rc u).1) = apply_finishes (did_finish_task rc u).1 rest from rfl]
    rw [ih, did_finish_task, didFinishLoop_count]
    rw [List.map_cons, List.sum_cons]
    ring

/-- C6: in a run where each task calls `did_finish_task` at most once
(`done` lists the tasks that have reported so far, `rem` those that have
not, together a permutation of the flow's tasks), every stage's counter
initialised at server entry stays nonnegative at every such reachable
point, and once every task has reported exactly once every counter is
exactly 0. -/
theorem ref_count_invariant (tasks done rem : List (List Nat)) (x : Nat)
    (h : (done ++ rem).Perm tasks) :
    0 ≤ apply_finishes (init_ref_count tasks) done x ∧
      (rem = [] → apply_finishes (init_ref_count tasks) done x = 0) := by
  have happ := apply_finishes_sum done (init_ref_count tasks) x
  have hinit := init_ref_count_sum tasks x
  have hperm : (((done ++ rem).map (fun u => (u.count x : Int))).sum) =
      ((tasks.map (fun u => (u.count x : Int))).sum) :=
    (h.map (fun u => (u.count x : Int))).sum_eq
  rw [List.map_append, List.sum_append] at hperm
  have hrem_nonneg : 0 ≤ ((rem.map (fun u => (u.count x : Int))).sum) := by
    apply List.sum_nonneg
    intro y hy
    obtain ⟨u, -, hu⟩ := List.mem_map.mp hy
    rw [← hu]
    positivity
  constructor
  · rw [happ, hinit, ← hperm]
    omega
  · intro hrem
    subst hrem
    rw [happ, hinit, ← hperm]
    simp

/-- Witness for C6 at a concrete input: a two-task flow (tasks with
upstream stage lists [0] and [0, 1]) after the first task has finished
and the second has not, and stage 0's counter. -/
theorem ref_count_invariant_witness :
    (([[0], [0, 1]] : List (List Nat)) ++ []).Perm [[0], [0, 1]] ∧
      0 ≤ apply_finishes (init_ref_count [[0], [0, 1]]) [[0], [0, 1]] 0 ∧
      (([] : List (List Nat)) = [] →
        apply_finishes (init_ref_count [[0], [0, 1]]) [[0], [0, 1]] 0 = 0) := by
  have hperm : (([[0], [0, 1]] : List (List Nat)) ++ []).Perm [[0], [0, 1]] := by
    simp
  exact ⟨hperm, ref_count_invariant [[0], [0, 1]] [[0], [0, 1]] [] 0 hperm⟩

/-- One slot of `MaterialisationWrapper.memo[task.schema]` for the task's
cache key: `nil` when the key is absent (`_nil`), `cond` when another
in-flight call has claimed it (a `threading.Condition` placeholder), and
`result v` when a finished call has stored its materialised result. -/
inductive MemoCell
  | nil
  | cond
  | result (v : Nat)
deriving DecidableEq, Repr

/-- What one invocation of `MaterialisationWrapper.__call__` did: the
value it returned, whether it executed the wrapped user function,
whether it used `store.retrieve_cached_output` (the store cache) and
copied the result into the working schema, whether the returned value
came from the in-process memo, and the memo cell afterwards. -/
structure WrapperResult where
  value : Nat
  ranBody : Bool
  usedStoreCache : Bool
  returnedMemo : Bool
  memoAfter : MemoCell
deriving DecidableEq, Repr

/-- Embedding of the decision logic of `MaterialisationWrapper.__call__`
for one task invocation. `lzy` is `task.lazy`; `memo` is the memo cell
read under the wrapper lock; `waitResult` is the value found in the cell
after waiting when the cell held a peer's `Condition`; `cacheLookup` is
`store.retrieve_cached_output(task)` — `some v` on success, `none` when
it raises `CacheError` (which `__call__` catches); `materialise` is
`store.materialise_task`; `bodyResult` is what the user function
returns. A memo hit returns a semi-deep copy of the memoised value
(identity on our scalar values) without running the body; otherwise a
non-lazy task first tries the store cache, copies a hit into the working
schema and memoises it; in every remaining case the inputs are
dematerialised, the body runs, and its materialised result is memoised. -/
def wrapper_call (lzy : Bool) (memo : MemoCell) (waitResult : Nat)
    (cacheLookup : Option Nat) (materialise : Nat → Nat) (bodyResult : Nat) :
    WrapperResult :=
  match memo with
  | MemoCell.result v => ⟨v, false, false, true, MemoCell.result v⟩
  | MemoCell.cond => ⟨waitResult, false, false, true, MemoCell.result waitResult⟩
  | MemoCell.nil =>
    if lzy = false then
      match cacheLookup with
      | some v => ⟨v, false, true, false, MemoCell.result v⟩
      | none =>
          ⟨materialise bodyResult, true, false, false,
           MemoCell.result (materialise bodyResult)⟩
    else
      ⟨materialise bodyResult, true, false, false,
       MemoCell.result (materialise bodyResult)⟩

/-- C8 counterexample: the claim says a lazy task's invocation always
executes the user function body; but when an earlier invocation with the
same schema and cache key has stored a memoised result, the wrapper
returns that memoised value without running the body — also for a lazy
task (the memo check at the top of `__call__` is not guarded by
`task.lazy`; only the store-cache lookup is). -/
theorem lazy_task_returns_memo_without_body :
    wrapper_call true (MemoCell.result 5) 0 none (fun v => v) 7 =
        ⟨5, false, false, true, MemoCell.result 5⟩ ∧
      (wrapper_call true (MemoCell.result 5) 0 none (fun v => v) 7).ranBody = false := by
  constructor <;> rfl

/-- C8 (amended): a lazy task never uses the store cache — the
`retrieve_cached_output` branch is skipped entirely for lazy tasks — and
whenever a lazy invocation does not hit the in-process memo (its cell is
absent), it always runs the user function body; but a lazy invocation
that hits the memo (or waits on a peer's in-flight invocation) returns
the memoised value without running the body. -/
theorem lazy_task_wrapper_spec (memo : MemoCell) (waitResult : Nat)
    (cacheLookup : Option Nat) (materialise : Nat → Nat) (bodyResult : Nat) :
    ((wrapper_call true memo waitResult cacheLookup materialise bodyResult).usedStoreCache
        = false) ∧
      ((wrapper_call true MemoCell.nil waitResult cacheLookup materialise bodyResult).ranBody
        = true) ∧
      (∀ v, (wrapper_call true (MemoCell.result v) waitResult cacheLookup materialise
        bodyResult).ranBody = false) := by
  refine ⟨?_, rfl, fun v => rfl⟩
  cases memo <;> rfl

/-- C9: for a non-lazy invocation that does not hit the in-process memo,
a successful store-cache retrieval is copied into the working schema,
stored in the memo and returned without running the user function; and
when `retrieve_cached_output` raises `CacheError`, the wrapper catches
it and falls through to dematerialise the inputs and run the user
function, memoising the materialised result. -/
theorem nonlazy_cache_hit_or_recompute (waitResult : Nat)
    (materialise : Nat → Nat) (bodyResult : Nat) :
    (∀ v, wrapper_call false MemoCell.nil waitResult (some v) materialise bodyResult =
        ⟨v, false, true, false, MemoCell.result v⟩) ∧
      (wrapper_call false MemoCell.nil waitResult none materialise bodyResult =
        ⟨materialise bodyResult, true, false, false,
         MemoCell.result (materialise bodyResult)⟩) := by
  exact ⟨fun v => rfl, rfl⟩
